import Mathlib

/-!
Verification of the per-client sliding-window rate limiter of
`go-clean-template` (package `middlewares`, file `rate_limit.go`, together
with the response helpers of `internal/shared/response/response.go`).

Shallow embedding conventions:
* Go `time.Time` / `time.Duration` values are modelled as `Int` nanosecond
  counts (Go durations are `int64` nanoseconds; `time.Time` is a point on a
  nanosecond timeline).  `t.After(u)` is `u < t`, `t.Add(d)` is `t + d`,
  `t.Sub(u)` is `t - u`.
* Go slices of `time.Time` become `List Int`; Go maps keyed by strings become
  association lists `List (String × RateLimiter)`.
* The mutex-guarded mutation of a `RateLimiter` becomes explicit state
  passing: `Allow` returns the successor state next to its result triple.
-/

namespace Middlewares

/-- `RateLimiter` from `rate_limit.go`: the per-client window counter.
`requests` holds admission timestamps oldest first, `maxTokens` is the
configured capacity and `window` the trailing window length. -/
structure RateLimiter where
  requests : List Int
  maxTokens : Int
  window : Int
  deriving Repr, DecidableEq

/-- `NewRateLimiter` from `rate_limit.go`. -/
def NewRateLimiter (maxRequests : Int) (window : Int) : RateLimiter :=
  { requests := [], maxTokens := maxRequests, window := window }

/-- The result triple of `RateLimiter.Allow`: `(bool, int, time.Time)`. -/
structure AllowResult where
  allowed : Bool
  remaining : Int
  resetAt : Int
  deriving Repr, DecidableEq

/-- The prefix-trim loop of `Allow` (`rate_limit.go` lines 173-183): scan for
the first entry strictly after `cutoff = now - window` and slice the list from
there; entries kept are exactly the suffix after the leading run of entries
`≤ cutoff`. -/
def RateLimiter.pruned (rl : RateLimiter) (now : Int) : List Int :=
  rl.requests.dropWhile (fun reqTime => decide (reqTime ≤ now - rl.window))

/-- `RateLimiter.Allow` from `rate_limit.go`: prune entries outside the
window, compute `remaining = maxTokens - len(requests)`; if positive, append
`now` and admit with `remaining - 1` and reset time `now + window`; otherwise
deny with remaining `0` and reset time `requests[0] + window` (or
`now + window` when the pruned list is empty). -/
def RateLimiter.Allow (rl : RateLimiter) (now : Int) : RateLimiter × AllowResult :=
  let kept := rl.pruned now
  let remaining := rl.maxTokens - (kept.length : Int)
  if 0 < remaining then
    ({ rl with requests := kept ++ [now] },
     { allowed := true, remaining := remaining - 1, resetAt := now + rl.window })
  else
    ({ rl with requests := kept },
     { allowed := false, remaining := 0,
       resetAt := match kept with
         | [] => now + rl.window
         | t0 :: _ => t0 + rl.window })

/-- Run a sequence of `Allow` calls, keeping only the final counter state. -/
def runCalls (rl : RateLimiter) (ts : List Int) : RateLimiter :=
  ts.foldl (fun s t => (s.Allow t).1) rl

/-- Run a sequence of `Allow` calls, collecting each call's result triple. -/
def runResults (rl : RateLimiter) : List Int → List AllowResult
  | [] => []
  | t :: ts => (rl.Allow t).2 :: runResults (rl.Allow t).1 ts

/-- The call instants at which a sequence of `Allow` calls admits. -/
def admittedTimes (rl : RateLimiter) : List Int → List Int
  | [] => []
  | t :: ts =>
    if (rl.Allow t).2.allowed then t :: admittedTimes (rl.Allow t).1 ts
    else admittedTimes (rl.Allow t).1 ts

example : ((NewRateLimiter 2 60).Allow 0).2 =
    { allowed := true, remaining := 1, resetAt := 60 } := by decide

example : (runResults (NewRateLimiter 2 60) [0, 1, 2]).map AllowResult.allowed =
    [true, true, false] := by decide

example : ((runCalls (NewRateLimiter 2 60) [0, 1]).Allow 2).2 =
    { allowed := false, remaining := 0, resetAt := 60 } := by decide

example : admittedTimes (NewRateLimiter 2 60) [0, 1, 2, 61] = [0, 1, 61] := by decide

/-! ## The limiter registry (`ClientLimiterStore`) -/

/-- `ClientLimiterStore` from `rate_limit.go`: the map of per-client counters
(modelled as an association list), the time of the last cleanup pass, and the
configuration handed to freshly created counters. -/
structure ClientLimiterStore where
  limiters : List (String × RateLimiter)
  lastCleanup : Int
  maxRequests : Int
  window : Int
  deriving Repr, DecidableEq

/-- `NewClientLimiterStore` from `rate_limit.go` (`lastCleanup` is the
creation instant). -/
def NewClientLimiterStore (maxRequests : Int) (window : Int) (now : Int) :
    ClientLimiterStore :=
  { limiters := [], lastCleanup := now, maxRequests := maxRequests, window := window }

/-- Go map lookup `cls.limiters[clientID]` on the association-list model. -/
def lookupLimiter (m : List (String × RateLimiter)) (clientID : String) :
    Option RateLimiter :=
  (m.find? (fun p => p.1 == clientID)).map (fun p => p.2)

/-- The idleness test of `cleanupInactiveLimiters` (`rate_limit.go` lines
255-256): a counter is inactive when it has no timestamps, or when
`now - last > window*2` for its most recent timestamp `last`. -/
def isInactive (now : Int) (window : Int) (rl : RateLimiter) : Bool :=
  match rl.requests.getLast? with
  | none => true
  | some last => decide (window * 2 < now - last)

/-- `ClientLimiterStore.cleanupInactiveLimiters` from `rate_limit.go`: delete
every inactive counter from the map and stamp `lastCleanup = now`. -/
def ClientLimiterStore.cleanupInactiveLimiters (cls : ClientLimiterStore)
    (now : Int) : ClientLimiterStore :=
  { cls with
    limiters := cls.limiters.filter (fun p => !isInactive now cls.window p.2),
    lastCleanup := now }

/-- Nanoseconds per second (Go `time.Second`). -/
def nsPerSecond : Int := 1000000000

/-- Go `time.Minute` in nanoseconds. -/
def timeMinute : Int := 60 * nsPerSecond

/-- The lookup/create core of `ClientLimiterStore.GetLimiter`
(`rate_limit.go` lines 226-244) with its two map reads made explicit: `m1` is
the map observed under the read lock on the fast path, `m2` the map observed
later under the write lock (a concurrent request for the same key may have
registered a counter in between).  As in the source, the `limiter` variable
bound by the first lookup is what the double-check branch returns: when the
first lookup missed and the second finds the key, the returned value is the
stale first-lookup result (Go `nil`, here `none`). -/
def GetLimiterCore (m1 m2 : List (String × RateLimiter)) (clientID : String)
    (maxRequests window : Int) :
    Option RateLimiter × List (String × RateLimiter) :=
  let limiter := lookupLimiter m1 clientID
  match limiter with
  | some _ => (limiter, m2)
  | none =>
    match lookupLimiter m2 clientID with
    | some _ => (limiter, m2)
    | none =>
      let l := NewRateLimiter maxRequests window
      (some l, (clientID, l) :: m2)

/-- `ClientLimiterStore.GetLimiter` from `rate_limit.go` as executed without
an interleaved writer: both map reads observe the same map, so the
double-check branch of `GetLimiterCore` is never taken and a counter is
always returned.  Includes the opportunistic cleanup trigger
(`time.Since(lastCleanup) > 5*time.Minute`). -/
def ClientLimiterStore.GetLimiter (cls : ClientLimiterStore) (clientID : String)
    (now : Int) : RateLimiter × ClientLimiterStore :=
  let cls := if 5 * timeMinute < now - cls.lastCleanup then
    cls.cleanupInactiveLimiters now else cls
  match lookupLimiter cls.limiters clientID with
  | some l => (l, cls)
  | none =>
    let l := NewRateLimiter cls.maxRequests cls.window
    (l, { cls with limiters := (clientID, l) :: cls.limiters })

/-- Write an updated counter back under its key, modelling that the Go map
stores a pointer through which `Allow` mutates the registered counter. -/
def updateLimiter (m : List (String × RateLimiter)) (clientID : String)
    (rl : RateLimiter) : List (String × RateLimiter) :=
  m.map (fun p => if p.1 == clientID then (clientID, rl) else p)

/-! ## Client identity extraction (`getClientIP`)

The IP parsing and host/port splitting below embed the behaviour of the Go
standard library (`net.ParseIP`, `net.SplitHostPort`), which the repository
uses as an external collaborator.  IPv4 parsing follows Go's dotted-decimal
rules (four fields, each 0-255, no leading zeros); IPv6 recognition is
simplified to plain hex-group forms (no embedded IPv4, no zone suffixes) —
no claim in this development touches those forms. -/

/-- Hexadecimal digit test. -/
def isHexChar (c : Char) : Bool :=
  c.isDigit || ('a' ≤ c && c ≤ 'f') || ('A' ≤ c && c ≤ 'F')

/-- Split a character list at every occurrence of `sep` (the analogue of
`strings.Split` for a one-character separator). -/
def splitOnChar (sep : Char) : List Char → List (List Char)
  | [] => [[]]
  | c :: cs =>
    if c == sep then [] :: splitOnChar sep cs
    else
      match splitOnChar sep cs with
      | [] => [[c]]
      | g :: gs => (c :: g) :: gs

/-- Decimal value of a digit list. -/
def decimalValue (g : List Char) : Nat :=
  g.foldl (fun acc c => acc * 10 + (c.toNat - 48)) 0

/-- A dotted-decimal IPv4 field: non-empty, digits only, value at most 255,
and no leading zero (Go rejects leading zeros in dotted decimals). -/
def isV4Octet (g : List Char) : Bool :=
  !g.isEmpty && g.all Char.isDigit &&
    (g.length == 1 || !(g.head? == some '0')) &&
    decide (decimalValue g ≤ 255)

/-- Dotted-decimal IPv4 form: exactly four valid fields. -/
def isIPv4 (s : String) : Bool :=
  match splitOnChar '.' s.toList with
  | [a, b, c, d] => isV4Octet a && isV4Octet b && isV4Octet c && isV4Octet d
  | _ => false

/-- A 1-4 digit hexadecimal IPv6 group. -/
def isHexGroup (g : List Char) : Bool :=
  decide (1 ≤ g.length) && decide (g.length ≤ 4) && g.all isHexChar

/-- Split a character list at the first `::`, if present. -/
def splitDoubleColon : List Char → Option (List Char × List Char)
  | [] => none
  | [_] => none
  | a :: b :: rest =>
    if a == ':' && b == ':' then some ([], rest)
    else
      match splitDoubleColon (b :: rest) with
      | some (l, r) => some (a :: l, r)
      | none => none

/-- Simplified IPv6 form: eight hex groups, or two shorter runs joined by
exactly one `::`. -/
def isIPv6 (s : String) : Bool :=
  let cs := s.toList
  match splitDoubleColon cs with
  | none =>
    let gs := splitOnChar ':' cs
    gs.length == 8 && gs.all isHexGroup
  | some (l, r) =>
    if (splitDoubleColon r).isSome then false
    else
      let gl := if l.isEmpty then [] else splitOnChar ':' l
      let gr := if r.isEmpty then [] else splitOnChar ':' r
      decide (gl.length + gr.length ≤ 7) && gl.all isHexGroup && gr.all isHexGroup

/-- Whether Go `net.ParseIP` succeeds: the first `.` or `:` encountered
selects dotted-decimal or IPv6 parsing; a string with neither is not an IP.
-/
def parseIPOk (s : String) : Bool :=
  match s.toList.find? (fun c => c == '.' || c == ':') with
  | some c => if c == '.' then isIPv4 s else isIPv6 s
  | none => false

/-- Index of the last `':'` in a character list, if any. -/
def lastColon : List Char → Option Nat
  | [] => none
  | c :: cs =>
    match lastColon cs with
    | some i => some (i + 1)
    | none => if c == ':' then some 0 else none

/-- Go `net.SplitHostPort`: split at the last `':'`; fail when there is none,
when an unbracketed host still contains `':'` (too many colons), or when
stray brackets appear.  Bracketed hosts are accepted only in the exact
`[host]:port` shape. -/
def splitHostPort (hostport : String) : Option (String × String) :=
  let cs := hostport.toList
  match lastColon cs with
  | none => none
  | some i =>
    let host := cs.take i
    let port := cs.drop (i + 1)
    if cs.head? == some '[' then
      if decide (2 ≤ host.length) && (host.getLast? == some ']') &&
          !((host.drop 1).dropLast.any (fun c => c == '[' || c == ']')) &&
          !(port.any (fun c => c == '[' || c == ']' || c == ':')) then
        some (⟨(host.drop 1).dropLast⟩, ⟨port⟩)
      else none
    else
      if host.any (fun c => c == ':' || c == '[' || c == ']') ||
          port.any (fun c => c == '[' || c == ']') then none
      else some (⟨host⟩, ⟨port⟩)

/-- The part of an HTTP request the middleware consults: `r.Header.Get` (the
empty string for an absent header) and `r.RemoteAddr`. -/
structure Request where
  headers : String → String
  remoteAddr : String

/-- ASCII whitespace, for the model of `strings.TrimSpace`. -/
def isSpaceChar (c : Char) : Bool :=
  c == ' ' || c == '\t' || c == '\n' || c == '\r'

/-- Trim whitespace from both ends of a character list. -/
def trimChars (cs : List Char) : List Char :=
  (((cs.dropWhile isSpaceChar).reverse).dropWhile isSpaceChar).reverse

/-- `extractIPFromHeader` from `rate_limit.go`: take the part before the
first comma, trim whitespace, and return it when it parses as an IP,
otherwise the empty string.  (Go trims Unicode whitespace; the model trims
ASCII whitespace, which the claims never distinguish.) -/
def extractIPFromHeader (headerValue : String) : String :=
  if headerValue == "" then ""
  else
    let firstPart := headerValue.toList.takeWhile (fun c => !(c == ','))
    let ip : String := ⟨trimChars firstPart⟩
    if parseIPOk ip then ip else ""

/-- The header probe loop of `getClientIP`: first non-empty extracted IP
wins. -/
def firstHeaderIP (r : Request) : List String → String
  | [] => ""
  | h :: rest =>
    let ip := extractIPFromHeader (r.headers h)
    if ip == "" then firstHeaderIP r rest else ip

/-- The proxy headers checked by `getClientIP`, in order of preference. -/
def clientIPHeaders : List String := ["X-Forwarded-For", "X-Real-IP", "CF-Connecting-IP"]

/-- `getClientIP` from `rate_limit.go`: probe the proxy headers; fall back to
`RemoteAddr`, returning its host part when it splits and parses as an IP and
the raw `RemoteAddr` string verbatim otherwise. -/
def getClientIP (r : Request) : String :=
  let ip := firstHeaderIP r clientIPHeaders
  if !(ip == "") then ip
  else
    match splitHostPort r.remoteAddr with
    | some (host, _) => if parseIPOk host then host else r.remoteAddr
    | none => r.remoteAddr

example : getClientIP { headers := fun _ => "", remoteAddr := "10.1.2.3:4567" } =
    "10.1.2.3" := by decide

example : getClientIP { headers := fun _ => "", remoteAddr := "bad_addr" } =
    "bad_addr" := by decide

example : getClientIP
    { headers := fun h => if h == "X-Forwarded-For" then "1.2.3.4, 5.6.7.8" else "",
      remoteAddr := "9.9.9.9:80" } = "1.2.3.4" := by decide

/-! ## Response writing and the `RateLimit` middleware -/

/-- `w.Header().Set(key, value)`: replace the existing value of `key` or
append a fresh entry. -/
def setHeader (hs : List (String × String)) (key value : String) :
    List (String × String) :=
  if hs.any (fun p => p.1 == key) then
    hs.map (fun p => if p.1 == key then (key, value) else p)
  else hs ++ [(key, value)]

/-- Read a response header back (`none` when never set). -/
def headerValue (hs : List (String × String)) (key : String) : Option String :=
  (hs.find? (fun p => p.1 == key)).map (fun p => p.2)

/-- `ErrorInfo` from `response.go`: the `code`/`message` pair serialised
under the `error` key of the rejection body. -/
structure ErrorInfo where
  code : String
  message : String
  deriving Repr, DecidableEq

/-- The observable outcome of running the middleware on one request: headers
set so far, the status code written (if any), the `ErrorResponse` body
encoded (if any), and whether the request was forwarded to the next
handler. -/
structure ResponseWriter where
  headers : List (String × String)
  status : Option Int
  errorBody : Option ErrorInfo
  forwarded : Bool
  deriving Repr, DecidableEq

/-- A fresh response writer: nothing written, not forwarded. -/
def ResponseWriter.empty : ResponseWriter :=
  { headers := [], status := none, errorBody := none, forwarded := false }

/-- `response.Error` composed with `sendJSON` from `response.go`: set
`Content-Type`, write the status code, and encode
`ErrorResponse{Error: {Code: code, Message: message}}`. -/
def responseError (w : ResponseWriter) (status : Int) (code message : String) :
    ResponseWriter :=
  { w with
    headers := setHeader w.headers "Content-Type" "application/json",
    status := some status,
    errorBody := some { code := code, message := message } }

/-- Seconds-since-epoch of a nanosecond instant (Go `time.Time.Unix`). -/
def unixSec (t : Int) : Int := Int.fdiv t nsPerSecond

/-- `setRateLimitHeaders` from `rate_limit.go`: the four `X-RateLimit-*`
headers; the window header is the hardcoded string `"60"`. -/
def setRateLimitHeaders (hs : List (String × String)) (limit remaining : Int)
    (resetTime : Int) : List (String × String) :=
  setHeader (setHeader (setHeader (setHeader hs
    "X-RateLimit-Limit" (toString limit))
    "X-RateLimit-Remaining" (toString remaining))
    "X-RateLimit-Reset" (toString (unixSec resetTime)))
    "X-RateLimit-Window" "60"

/-- `RateLimitConfig` from `config.go` (the fields the middleware reads). -/
structure RateLimitConfig where
  enabled : Bool
  requestsPerMinute : Int
  deriving Repr, DecidableEq

/-- The `Retry-After` value computed on denial (`rate_limit.go` lines
298-301): `int(time.Until(resetTime).Seconds())` — whole seconds until the
reset, truncated toward zero — raised to 1 when below 1. -/
def retryAfterOf (resetAt now : Int) : Int :=
  let retryAfter0 := Int.tdiv (resetAt - now) nsPerSecond
  if retryAfter0 < 1 then 1 else retryAfter0

/-- The per-request handler produced by `RateLimit` in `rate_limit.go`,
evaluated at instant `now` against registry state `store`: skip when
disabled; fail open when no client identity is derived; otherwise get (or
create) the client's counter, call `Allow`, set the rate-limit headers, and
either reject with 429 (`http.StatusTooManyRequests`), a `Retry-After`
header of `int(time.Until(resetTime).Seconds())` clamped below by 1, and the
`RATE_LIMIT_EXCEEDED` body — or forward to the next handler. -/
def RateLimit (rateLimitConfig : RateLimitConfig) (store : ClientLimiterStore)
    (r : Request) (now : Int) : ResponseWriter × ClientLimiterStore :=
  if !rateLimitConfig.enabled then
    ({ ResponseWriter.empty with forwarded := true }, store)
  else
    let clientIP := getClientIP r
    if clientIP == "" then
      ({ ResponseWriter.empty with forwarded := true }, store)
    else
      let res := store.GetLimiter clientIP now
      let limiter := res.1
      let store1 := res.2
      let ares := limiter.Allow now
      let store2 := { store1 with
        limiters := updateLimiter store1.limiters clientIP ares.1 }
      let w := { ResponseWriter.empty with
        headers := setRateLimitHeaders [] rateLimitConfig.requestsPerMinute
          ares.2.remaining ares.2.resetAt }
      if !ares.2.allowed then
        let retryAfter := retryAfterOf ares.2.resetAt now
        let w := { w with
          headers := setHeader w.headers "Retry-After" (toString retryAfter) }
        (responseError w 429 "RATE_LIMIT_EXCEEDED"
          ("Rate limit exceeded. Try again in " ++ toString retryAfter ++ " seconds."),
         store2)
      else
        ({ w with forwarded := true }, store2)

example :
    (RateLimit { enabled := false, requestsPerMinute := 100 }
      (NewClientLimiterStore 100 timeMinute 0)
      { headers := fun _ => "", remoteAddr := "1.2.3.4:80" } 0).1 =
    { ResponseWriter.empty with forwarded := true } := by decide

example :
    ((RateLimit { enabled := true, requestsPerMinute := 1 }
      (NewClientLimiterStore 1 timeMinute 0)
      { headers := fun _ => "", remoteAddr := "1.2.3.4:80" } 0).1.forwarded,
     headerValue (RateLimit { enabled := true, requestsPerMinute := 1 }
      (NewClientLimiterStore 1 timeMinute 0)
      { headers := fun _ => "", remoteAddr := "1.2.3.4:80" } 0).1.headers
        "X-RateLimit-Remaining") =
    (true, some "0") := by decide

/-! ## Helper lemmas -/

theorem dropWhile_eq_self_of_head {p : Int → Bool} :
    ∀ {l : List Int}, (∀ x ∈ l, p x = false) → l.dropWhile p = l := by
  intro l h
  cases l with
  | nil => rfl
  | cons a t => simp [List.dropWhile_cons, h a (by simp)]

theorem mem_dropWhile_subset {p : Int → Bool} {l : List Int} {x : Int}
    (h : x ∈ l.dropWhile p) : x ∈ l := by
  have hl : l.takeWhile p ++ l.dropWhile p = l := List.takeWhile_append_dropWhile p l
  rw [← hl]
  exact List.mem_append_right _ h

theorem length_dropWhile_le' {p : Int → Bool} (l : List Int) :
    (l.dropWhile p).length ≤ l.length := by
  have hl : l.takeWhile p ++ l.dropWhile p = l := List.takeWhile_append_dropWhile p l
  have h2 := congrArg List.length hl
  rw [List.length_append] at h2
  omega

theorem Allow_eq_admitted (rl : RateLimiter) (now : Int)
    (h : 0 < rl.maxTokens - ((rl.pruned now).length : Int)) :
    rl.Allow now =
      ({ rl with requests := rl.pruned now ++ [now] },
       { allowed := true,
         remaining := rl.maxTokens - ((rl.pruned now).length : Int) - 1,
         resetAt := now + rl.window }) := by
  simp only [RateLimiter.Allow]
  rw [if_pos h]

theorem Allow_eq_denied (rl : RateLimiter) (now : Int)
    (h : ¬0 < rl.maxTokens - ((rl.pruned now).length : Int)) :
    rl.Allow now =
      ({ rl with requests := rl.pruned now },
       { allowed := false, remaining := 0,
         resetAt := match rl.pruned now with
           | [] => now + rl.window
           | t0 :: _ => t0 + rl.window }) := by
  simp only [RateLimiter.Allow]
  rw [if_neg h]

theorem Allow_maxTokens (rl : RateLimiter) (now : Int) :
    ((rl.Allow now).1).maxTokens = rl.maxTokens := by
  by_cases h : 0 < rl.maxTokens - ((rl.pruned now).length : Int) <;>
    simp [RateLimiter.Allow, h]

theorem Allow_window (rl : RateLimiter) (now : Int) :
    ((rl.Allow now).1).window = rl.window := by
  by_cases h : 0 < rl.maxTokens - ((rl.pruned now).length : Int) <;>
    simp [RateLimiter.Allow, h]

/-- In a nondecreasing list, every entry surviving the prune is strictly
inside the window. -/
theorem mem_dropWhile_of_sorted {c : Int} :
    ∀ {l : List Int}, l.Sorted (· ≤ ·) →
      ∀ x ∈ l.dropWhile (fun t => decide (t ≤ c)), c < x := by
  intro l
  induction l with
  | nil => intro _ x hx; simp at hx
  | cons a t ih =>
    intro hs x hx
    rw [List.dropWhile_cons] at hx
    by_cases ha : a ≤ c
    · simp only [decide_eq_true ha, if_true] at hx
      exact ih hs.of_cons x hx
    · simp only [decide_eq_false ha, if_false] at hx
      rcases List.mem_cons.mp hx with rfl | hx'
      · omega
      · have := (List.sorted_cons.mp hs).1 x hx'
        omega

theorem pair_find?_pos {q : String × String → Bool} {a : String × String}
    (l : List (String × String)) (h : q a = true) :
    (a :: l).find? q = some a := by
  simp [List.find?_cons, h]

theorem pair_find?_neg {q : String × String → Bool} {a : String × String}
    (l : List (String × String)) (h : q a = false) :
    (a :: l).find? q = l.find? q := by
  simp [List.find?_cons, h]

theorem find?_map_replace (k v : String) :
    ∀ hs : List (String × String),
      ((hs.map (fun p => if p.1 == k then (k, v) else p)).find?
        (fun p => p.1 == k)) =
        if hs.any (fun p => p.1 == k) then some (k, v) else none := by
  intro hs
  induction hs with
  | nil => simp
  | cons p t ih =>
    by_cases hp : (p.1 == k) = true
    · have hkk : ((if (p.1 == k) = true then (k, v) else p).1 == k) = true := by
        simp [hp]
      rw [List.map_cons, pair_find?_pos _ hkk, if_pos hp, List.any_cons, hp,
        Bool.true_or]
      rfl
    · simp only [Bool.not_eq_true] at hp
      have hkk : ((if (p.1 == k) = true then (k, v) else p).1 == k) = false := by
        simp [hp]
      rw [List.map_cons, pair_find?_neg _ hkk, ih, List.any_cons, hp,
        Bool.false_or]

theorem find?_map_replace_ne {k k' : String} (v : String) (h : (k == k') = false) :
    ∀ hs : List (String × String),
      ((hs.map (fun p => if p.1 == k then (k, v) else p)).find?
        (fun p => p.1 == k')) = hs.find? (fun p => p.1 == k') := by
  intro hs
  induction hs with
  | nil => simp
  | cons p t ih =>
    by_cases hp : (p.1 == k) = true
    · have hp' : (p.1 == k') = false := by
        rw [beq_iff_eq] at hp
        rw [hp]
        exact h
      have hkk : ((if (p.1 == k) = true then (k, v) else p).1 == k') = false := by
        simp [hp, h]
      rw [List.map_cons, pair_find?_neg _ hkk, pair_find?_neg _ hp']
      exact ih
    · simp only [Bool.not_eq_true] at hp
      by_cases hq : (p.1 == k') = true
      · have hkk : ((if (p.1 == k) = true then (k, v) else p).1 == k') = true := by
          simp [hp, hq]
        rw [List.map_cons, pair_find?_pos _ hkk, pair_find?_pos _ hq, hp]
        simp
      · simp only [Bool.not_eq_true] at hq
        have hkk : ((if (p.1 == k) = true then (k, v) else p).1 == k') = false := by
          simp [hp, hq]
        rw [List.map_cons, pair_find?_neg _ hkk, pair_find?_neg _ hq]
        exact ih

theorem find?_concat_of_not {q : String × String → Bool} (kv : String × String)
    (hkv : q kv = false) :
    ∀ hs : List (String × String), ((hs ++ [kv]).find? q) = hs.find? q := by
  intro hs
  induction hs with
  | nil =>
    rw [List.nil_append, pair_find?_neg _ hkv]
  | cons p t ih =>
    by_cases hq : q p = true
    · rw [List.cons_append, pair_find?_pos _ hq, pair_find?_pos _ hq]
    · simp only [Bool.not_eq_true] at hq
      rw [List.cons_append, pair_find?_neg _ hq, pair_find?_neg _ hq]
      exact ih

theorem headerValue_setHeader_self (hs : List (String × String)) (k v : String) :
    headerValue (setHeader hs k v) k = some v := by
  rw [setHeader]
  by_cases hany : hs.any (fun p => p.1 == k) = true
  · rw [if_pos hany, headerValue, find?_map_replace, if_pos hany]
    rfl
  · rw [if_neg hany, headerValue]
    have hnone : hs.find? (fun p => p.1 == k) = none := by
      rw [List.find?_eq_none]
      intro p hp
      intro hcon
      exact hany (List.any_eq_true.mpr ⟨p, hp, hcon⟩)
    have h1 : ([(k, v)].find? (fun p => p.1 == k)) = some (k, v) := by
      apply pair_find?_pos
      simp
    rw [List.find?_append, hnone, h1]
    rfl

theorem headerValue_setHeader_ne (hs : List (String × String)) {k k' : String}
    (v : String) (h : (k == k') = false) :
    headerValue (setHeader hs k v) k' = headerValue hs k' := by
  rw [setHeader]
  by_cases hany : hs.any (fun p => p.1 == k) = true
  · rw [if_pos hany, headerValue, find?_map_replace_ne v h, headerValue]
  · rw [if_neg hany, headerValue, find?_concat_of_not (k, v) h, headerValue]

/-- The four lookups after `setRateLimitHeaders` on a fresh header map. -/
theorem setRateLimitHeaders_lookup (limit remaining resetTime : Int) :
    headerValue (setRateLimitHeaders [] limit remaining resetTime)
        "X-RateLimit-Limit" = some (toString limit) ∧
    headerValue (setRateLimitHeaders [] limit remaining resetTime)
        "X-RateLimit-Remaining" = some (toString remaining) ∧
    headerValue (setRateLimitHeaders [] limit remaining resetTime)
        "X-RateLimit-Reset" = some (toString (unixSec resetTime)) ∧
    headerValue (setRateLimitHeaders [] limit remaining resetTime)
        "X-RateLimit-Window" = some "60" := by
  rw [setRateLimitHeaders]
  refine ⟨?_, ?_, ?_, ?_⟩
  · rw [headerValue_setHeader_ne _ _ (by decide),
      headerValue_setHeader_ne _ _ (by decide),
      headerValue_setHeader_ne _ _ (by decide),
      headerValue_setHeader_self]
  · rw [headerValue_setHeader_ne _ _ (by decide),
      headerValue_setHeader_ne _ _ (by decide),
      headerValue_setHeader_self]
  · rw [headerValue_setHeader_ne _ _ (by decide),
      headerValue_setHeader_self]
  · rw [headerValue_setHeader_self]

theorem runCalls_nil (rl : RateLimiter) : runCalls rl [] = rl := rfl

theorem runCalls_cons (rl : RateLimiter) (u : Int) (us : List Int) :
    runCalls rl (u :: us) = runCalls (rl.Allow u).1 us := rfl

theorem runCalls_concat (rl : RateLimiter) (us : List Int) (u : Int) :
    runCalls rl (us ++ [u]) = ((runCalls rl us).Allow u).1 := by
  rw [runCalls, List.foldl_append]
  rfl

theorem admittedTimes_cons (rl : RateLimiter) (u : Int) (us : List Int) :
    admittedTimes rl (u :: us) =
      if (rl.Allow u).2.allowed then u :: admittedTimes (rl.Allow u).1 us
      else admittedTimes (rl.Allow u).1 us := rfl

theorem Allow_allowed_iff (rl : RateLimiter) (now : Int) :
    (rl.Allow now).2.allowed = true ↔
      0 < rl.maxTokens - ((rl.pruned now).length : Int) := by
  by_cases h : 0 < rl.maxTokens - ((rl.pruned now).length : Int)
  · rw [Allow_eq_admitted rl now h]
    simpa using h
  · rw [Allow_eq_denied rl now h]
    simpa using h

theorem Allow_requests_mem (rl : RateLimiter) (now : Int) :
    ∀ x ∈ (rl.Allow now).1.requests, x ∈ rl.requests ∨ x = now := by
  intro x hx
  by_cases h : 0 < rl.maxTokens - ((rl.pruned now).length : Int)
  · rw [Allow_eq_admitted rl now h] at hx
    simp only at hx
    rcases List.mem_append.mp hx with hk | hu
    · exact Or.inl (mem_dropWhile_subset hk)
    · exact Or.inr (List.mem_singleton.mp hu)
  · rw [Allow_eq_denied rl now h] at hx
    exact Or.inl (mem_dropWhile_subset hx)

theorem runCalls_requests_mem :
    ∀ (us : List Int) (rl : RateLimiter),
      ∀ x ∈ (runCalls rl us).requests, x ∈ rl.requests ∨ x ∈ us := by
  intro us
  induction us with
  | nil => intro rl x hx; exact Or.inl hx
  | cons u us ih =>
    intro rl x hx
    rw [runCalls_cons] at hx
    rcases ih _ x hx with hr | hu
    · rcases Allow_requests_mem rl u x hr with h1 | h1
      · exact Or.inl h1
      · exact Or.inr (by simp [h1])
    · exact Or.inr (List.mem_cons_of_mem _ hu)

theorem sorted_dropWhile {p : Int → Bool} {l : List Int}
    (hs : l.Sorted (· ≤ ·)) : (l.dropWhile p).Sorted (· ≤ ·) := by
  have hl : l.takeWhile p ++ l.dropWhile p = l := List.takeWhile_append_dropWhile p l
  rw [← hl] at hs
  exact (List.pairwise_append.mp hs).2.1

theorem Allow_sorted (rl : RateLimiter) (now : Int)
    (hs : rl.requests.Sorted (· ≤ ·)) (hle : ∀ x ∈ rl.requests, x ≤ now) :
    ((rl.Allow now).1).requests.Sorted (· ≤ ·) := by
  have hkept : (rl.pruned now).Sorted (· ≤ ·) := sorted_dropWhile hs
  by_cases h : 0 < rl.maxTokens - ((rl.pruned now).length : Int)
  · rw [Allow_eq_admitted rl now h]
    simp only
    refine List.pairwise_append.mpr ⟨hkept, List.sorted_singleton now, ?_⟩
    intro x hx y hy
    rw [List.mem_singleton.mp hy]
    exact hle x (mem_dropWhile_subset hx)
  · rw [Allow_eq_denied rl now h]
    exact hkept

theorem runCalls_sorted :
    ∀ (us : List Int) (rl : RateLimiter),
      rl.requests.Sorted (· ≤ ·) → us.Sorted (· ≤ ·) →
      (∀ x ∈ rl.requests, ∀ u ∈ us, x ≤ u) →
      (runCalls rl us).requests.Sorted (· ≤ ·) := by
  intro us
  induction us with
  | nil => intro rl hs _ _; exact hs
  | cons u us ih =>
    intro rl hs hus h2
    rw [runCalls_cons]
    apply ih
    · exact Allow_sorted rl u hs (fun x hx => h2 x hx u (by simp))
    · exact hus.of_cons
    · intro x hx v hv
      rcases Allow_requests_mem rl u x hx with h1 | h1
      · exact h2 x h1 v (List.mem_cons_of_mem _ hv)
      · rw [h1]
        exact (List.sorted_cons.mp hus).1 v hv

theorem runCalls_maxTokens :
    ∀ (us : List Int) (rl : RateLimiter),
      (runCalls rl us).maxTokens = rl.maxTokens := by
  intro us
  induction us with
  | nil => intro rl; rfl
  | cons u us ih =>
    intro rl
    rw [runCalls_cons, ih, Allow_maxTokens]

theorem runCalls_window :
    ∀ (us : List Int) (rl : RateLimiter),
      (runCalls rl us).window = rl.window := by
  intro us
  induction us with
  | nil => intro rl; rfl
  | cons u us ih =>
    intro rl
    rw [runCalls_cons, ih, Allow_window]

/-- As long as the pending calls fit in the remaining headroom, every call
in the run is admitted (pruning can only increase headroom). -/
theorem runResults_all_allowed :
    ∀ (us : List Int) (rl : RateLimiter),
      ((rl.requests.length : Int) + us.length ≤ rl.maxTokens) →
      ∀ a ∈ runResults rl us, a.allowed = true := by
  intro us
  induction us with
  | nil =>
    intro rl _ a ha
    simp [runResults] at ha
  | cons u us ih =>
    intro rl h a ha
    have hkept : ((rl.pruned u).length : Int) ≤ (rl.requests.length : Int) := by
      exact_mod_cast length_dropWhile_le' rl.requests
    have hlen : ((u :: us).length : Int) = (us.length : Int) + 1 := by
      rw [List.length_cons]
      push_cast
      ring
    have hpos : 0 < rl.maxTokens - ((rl.pruned u).length : Int) := by
      rw [hlen] at h
      omega
    rw [runResults] at ha
    rcases List.mem_cons.mp ha with rfl | hmem
    · rw [Allow_eq_admitted rl u hpos]
    · apply ih (rl.Allow u).1 _ a hmem
      rw [Allow_maxTokens, Allow_eq_admitted rl u hpos]
      simp only [List.length_append, List.length_singleton]
      rw [hlen] at h
      push_cast
      omega

/-- When every call instant keeps every earlier entry strictly in window and
capacity is never exceeded, a run appends each call instant without pruning
anything. -/
theorem runCalls_no_prune :
    ∀ (us acc : List Int) (cap w : Int),
      ((acc.length : Int) + us.length ≤ cap) →
      (∀ u ∈ us, ∀ x ∈ acc ++ us, u - w < x) →
      runCalls ⟨acc, cap, w⟩ us = ⟨acc ++ us, cap, w⟩ := by
  intro us
  induction us with
  | nil =>
    intro acc cap w _ _
    simp [runCalls_nil]
  | cons u us ih =>
    intro acc cap w hlen hwin
    have hpr : (⟨acc, cap, w⟩ : RateLimiter).pruned u = acc := by
      apply dropWhile_eq_self_of_head
      intro x hx
      have hx' := hwin u (by simp) x (List.mem_append_left _ hx)
      simp only [decide_eq_false_iff_not]
      omega
    have hpos : 0 < (⟨acc, cap, w⟩ : RateLimiter).maxTokens -
        (((⟨acc, cap, w⟩ : RateLimiter).pruned u).length : Int) := by
      rw [hpr]
      show 0 < cap - ((acc.length : Int))
      simp only [List.length_cons] at hlen
      push_cast at hlen
      omega
    have hstep : ((⟨acc, cap, w⟩ : RateLimiter).Allow u).1 =
        (⟨acc ++ [u], cap, w⟩ : RateLimiter) := by
      rw [Allow_eq_admitted _ u hpos, hpr]
    rw [runCalls_cons, hstep, ih (acc ++ [u]) cap w ?_ ?_]
    · rw [List.append_assoc]
      rfl
    · simp at hlen ⊢
      omega
    · intro v hv x hx
      rcases List.mem_append.mp hx with hx1 | hx2
      · rcases List.mem_append.mp hx1 with hxa | hxu
        · exact hwin v (List.mem_cons_of_mem _ hv) x (List.mem_append_left _ hxa)
        · rw [List.mem_singleton.mp hxu]
          exact hwin v (List.mem_cons_of_mem _ hv) u (by simp)
      · exact hwin v (List.mem_cons_of_mem _ hv) x
          (List.mem_append_right _ (List.mem_cons_of_mem _ hx2))

theorem admittedTimes_mem :
    ∀ (us : List Int) (rl : RateLimiter), ∀ x ∈ admittedTimes rl us, x ∈ us := by
  intro us
  induction us with
  | nil =>
    intro rl x hx
    simp [admittedTimes] at hx
  | cons u us ih =>
    intro rl x hx
    rw [admittedTimes_cons] at hx
    by_cases h : (rl.Allow u).2.allowed = true
    · rw [if_pos h] at hx
      rcases List.mem_cons.mp hx with rfl | hm
      · simp
      · exact List.mem_cons_of_mem _ (ih _ x hm)
    · rw [if_neg h] at hx
      exact List.mem_cons_of_mem _ (ih _ x hx)

/-- Core window-count bound: over any nondecreasing run, the admitted
instants inside the half-open trailing window `(T - w, T]`, together with the
in-window entries already present, never exceed the capacity. -/
theorem admitted_countP_le :
    ∀ (us : List Int) (rl : RateLimiter) (cap w T : Int),
      rl.maxTokens = cap → rl.window = w →
      us.Sorted (· ≤ ·) →
      (∀ x ∈ rl.requests, ∀ u ∈ us, x ≤ u) →
      ((rl.requests.length : Int) ≤ max cap 0) →
      ((admittedTimes rl us).countP
          (fun s => decide (T - w < s ∧ s ≤ T)) : Int) +
        ((rl.requests.countP (fun s => decide (T - w < s ∧ s ≤ T))) : Int) ≤
        max cap 0 := by
  intro us
  induction us with
  | nil =>
    intro rl cap w T hcap hw _ _ hlen
    have hcnt : rl.requests.countP (fun s => decide (T - w < s ∧ s ≤ T)) ≤
        rl.requests.length := List.countP_le_length _
    have h0 : admittedTimes rl [] = [] := rfl
    rw [h0, List.countP_nil]
    push_cast
    omega
  | cons u us ih =>
    intro rl cap w T hcap hw hsor h2 hlen
    have h2u : ∀ x ∈ rl.requests, x ≤ u := fun x hx => h2 x hx u (by simp)
    have hsplit : rl.requests =
        rl.requests.takeWhile (fun t => decide (t ≤ u - rl.window)) ++
          rl.pruned u :=
      (List.takeWhile_append_dropWhile _ _).symm
    have hkeptlen : ((rl.pruned u).length : Int) ≤ (rl.requests.length : Int) := by
      exact_mod_cast length_dropWhile_le' rl.requests
    have h2' : ∀ x ∈ ((rl.Allow u).1).requests, ∀ v ∈ us, x ≤ v := by
      intro x hx v hv
      rcases Allow_requests_mem rl u x hx with h1 | h1
      · exact h2 x h1 v (List.mem_cons_of_mem _ hv)
      · rw [h1]
        exact (List.sorted_cons.mp hsor).1 v hv
    by_cases hall : (rl.Allow u).2.allowed = true
    · have hpos := (Allow_allowed_iff rl u).mp hall
      have hA := Allow_eq_admitted rl u hpos
      have hreq' : ((rl.Allow u).1).requests = rl.pruned u ++ [u] := by
        rw [hA]
      have hIH := ih (rl.Allow u).1 cap w T
        (by rw [Allow_maxTokens, hcap]) (by rw [Allow_window, hw])
        hsor.of_cons h2'
        (by
          rw [hreq', List.length_append, List.length_singleton]
          push_cast
          have : 0 ≤ max cap 0 := le_max_right cap 0
          rw [hcap] at hpos
          omega)
      rw [admittedTimes_cons, if_pos hall, List.countP_cons]
      rw [hreq', List.countP_append] at hIH
      have hsingle : List.countP (fun s => decide (T - w < s ∧ s ≤ T)) [u] =
          if (fun s => decide (T - w < s ∧ s ≤ T)) u then 1 else 0 := by
        simp [List.countP_cons]
      rw [hsingle] at hIH
      by_cases hT : u ≤ T
      · have htake : (rl.requests.takeWhile
            (fun t => decide (t ≤ u - rl.window))).countP
            (fun s => decide (T - w < s ∧ s ≤ T)) = 0 := by
          rw [List.countP_eq_zero]
          intro x hx
          have hx' := List.mem_takeWhile_imp hx
          rw [hw] at hx'
          simp only [decide_eq_true_eq] at hx'
          simp only [decide_eq_true_eq]
          rintro ⟨hcon, -⟩
          omega
        have hcnt : rl.requests.countP (fun s => decide (T - w < s ∧ s ≤ T)) =
            (rl.pruned u).countP (fun s => decide (T - w < s ∧ s ≤ T)) := by
          conv_lhs => rw [hsplit]
          rw [List.countP_append, htake, Nat.zero_add]
        rw [hcnt]
        simp only [] at hIH ⊢
        push_cast at hIH ⊢
        omega
      · have hpu : decide (T - w < u ∧ u ≤ T) = false := by
          simp only [decide_eq_false_iff_not]
          rintro ⟨-, hcon⟩
          omega
        have hA0 : (admittedTimes (rl.Allow u).1 us).countP
            (fun s => decide (T - w < s ∧ s ≤ T)) = 0 := by
          rw [List.countP_eq_zero]
          intro x hx
          have hxus := admittedTimes_mem us _ x hx
          have hux : u ≤ x := (List.sorted_cons.mp hsor).1 x hxus
          simp only [decide_eq_true_eq]
          rintro ⟨-, hcon⟩
          omega
        have hcnt : rl.requests.countP (fun s => decide (T - w < s ∧ s ≤ T)) ≤
            rl.requests.length := List.countP_le_length _
        rw [hA0, hpu, if_neg Bool.false_ne_true]
        push_cast
        omega
    · have hnot : ¬0 < rl.maxTokens - ((rl.pruned u).length : Int) :=
        fun hpos => hall ((Allow_allowed_iff rl u).mpr hpos)
      have hA := Allow_eq_denied rl u hnot
      have hreq' : ((rl.Allow u).1).requests = rl.pruned u := by
        rw [hA]
      have hIH := ih (rl.Allow u).1 cap w T
        (by rw [Allow_maxTokens, hcap]) (by rw [Allow_window, hw])
        hsor.of_cons h2'
        (by
          rw [hreq']
          omega)
      rw [admittedTimes_cons, if_neg hall]
      rw [hreq'] at hIH
      by_cases hT : u ≤ T
      · have htake : (rl.requests.takeWhile
            (fun t => decide (t ≤ u - rl.window))).countP
            (fun s => decide (T - w < s ∧ s ≤ T)) = 0 := by
          rw [List.countP_eq_zero]
          intro x hx
          have hx' := List.mem_takeWhile_imp hx
          rw [hw] at hx'
          simp only [decide_eq_true_eq] at hx'
          simp only [decide_eq_true_eq]
          rintro ⟨hcon, -⟩
          omega
        have hcnt : rl.requests.countP (fun s => decide (T - w < s ∧ s ≤ T)) =
            (rl.pruned u).countP (fun s => decide (T - w < s ∧ s ≤ T)) := by
          conv_lhs => rw [hsplit]
          rw [List.countP_append, htake, Nat.zero_add]
        rw [hcnt]
        exact hIH
      · have hA0 : (admittedTimes (rl.Allow u).1 us).countP
            (fun s => decide (T - w < s ∧ s ≤ T)) = 0 := by
          rw [List.countP_eq_zero]
          intro x hx
          have hxus := admittedTimes_mem us _ x hx
          have hux : u ≤ x := (List.sorted_cons.mp hsor).1 x hxus
          simp only [decide_eq_true_eq]
          rintro ⟨-, hcon⟩
          omega
        have hcnt : rl.requests.countP (fun s => decide (T - w < s ∧ s ≤ T)) ≤
            rl.requests.length := List.countP_le_length _
        rw [hA0]
        push_cast
        omega

theorem one_le_retryAfterOf (resetAt now : Int) : 1 ≤ retryAfterOf resetAt now := by
  rw [retryAfterOf]
  by_cases h : Int.tdiv (resetAt - now) nsPerSecond < 1
  · simp [h]
  · simp only [h, if_false]
    omega

/-! ## Claims -/

/-- C4 counterexample: the claim quantifies over "any configured capacity",
but with configured capacity `0` (an `int` the configuration never
validates) an empty counter denies its first request instead of admitting it
with remaining `capacity - 1`. -/
theorem c4_counterexample :
    ¬(((NewRateLimiter 0 timeMinute).Allow 0).2.allowed = true ∧
      ((NewRateLimiter 0 timeMinute).Allow 0).2.remaining = 0 - 1) := by decide

/-- C4 (amended): for every counter with an empty timestamp sequence and a
configured capacity of at least 1, `Allow` admits the request, returns
`remaining = capacity - 1`, and records exactly the call instant. -/
theorem c4_empty_counter_admits (rl : RateLimiter) (now : Int)
    (hempty : rl.requests = []) (hcap : 1 ≤ rl.maxTokens) :
    (rl.Allow now).2.allowed = true ∧
    (rl.Allow now).2.remaining = rl.maxTokens - 1 ∧
    (rl.Allow now).1.requests = [now] := by
  have hpr : rl.pruned now = [] := by simp [RateLimiter.pruned, hempty]
  have hpos : 0 < rl.maxTokens - ((rl.pruned now).length : Int) := by
    rw [hpr]; simpa using hcap
  rw [Allow_eq_admitted rl now hpos, hpr]
  simp

/-- C4 witness: a fresh counter of capacity 5 admits at instant 0. -/
theorem c4_witness :
    ((NewRateLimiter 5 timeMinute).Allow 0).2.allowed = true ∧
    ((NewRateLimiter 5 timeMinute).Allow 0).2.remaining =
      (NewRateLimiter 5 timeMinute).maxTokens - 1 ∧
    ((NewRateLimiter 5 timeMinute).Allow 0).1.requests = [0] :=
  c4_empty_counter_admits (NewRateLimiter 5 timeMinute) 0 rfl (by decide)

/-- C9: a denied `Allow` call appends nothing — the timestamp sequence after
the call is exactly the in-window suffix left by the prefix trim of the
sequence before the call, every trimmed entry being outside the window. -/
theorem c9_denied_no_append (rl : RateLimiter) (now : Int)
    (hdeny : (rl.Allow now).2.allowed = false) :
    (rl.Allow now).1.requests =
      rl.requests.dropWhile (fun t => decide (t ≤ now - rl.window)) ∧
    ∃ dropped, (∀ x ∈ dropped, x ≤ now - rl.window) ∧
      rl.requests = dropped ++ (rl.Allow now).1.requests := by
  by_cases h : 0 < rl.maxTokens - ((rl.pruned now).length : Int)
  · exfalso
    rw [Allow_eq_admitted rl now h] at hdeny
    simp at hdeny
  · have hreq : (rl.Allow now).1.requests =
        rl.requests.dropWhile (fun t => decide (t ≤ now - rl.window)) := by
      rw [Allow_eq_denied rl now h]
      rfl
    refine ⟨hreq, rl.requests.takeWhile (fun t => decide (t ≤ now - rl.window)), ?_, ?_⟩
    · intro x hx
      simpa using List.mem_takeWhile_imp hx
    · rw [hreq]
      exact (List.takeWhile_append_dropWhile _ _).symm

/-- C9 witness: a full capacity-1 counter denies at instant 10 and keeps its
single in-window timestamp unchanged. -/
theorem c9_witness :
    (({ requests := [0], maxTokens := 1, window := timeMinute } : RateLimiter).Allow
        10).1.requests =
      List.dropWhile (fun t => decide (t ≤ 10 - timeMinute)) [0] ∧
    ∃ dropped, (∀ x ∈ dropped, x ≤ 10 - timeMinute) ∧
      [(0:Int)] = dropped ++
        (({ requests := [0], maxTokens := 1, window := timeMinute } : RateLimiter).Allow
          10).1.requests :=
  c9_denied_no_append
    { requests := [0], maxTokens := 1, window := timeMinute } 10 (by decide)

/-- C6: the cleanup sweep removes exactly the idle counters — those with no
timestamps, or whose most recent timestamp is more than `2 × window` old —
and every pair whose counter has a recent-enough timestamp survives. -/
theorem c6_sweep_exactly_idle (cls : ClientLimiterStore) (now : Int)
    (k : String) (rl : RateLimiter) :
    (k, rl) ∈ (cls.cleanupInactiveLimiters now).limiters ↔
      (k, rl) ∈ cls.limiters ∧
        ¬(rl.requests = [] ∨
          ∃ last, rl.requests.getLast? = some last ∧ cls.window * 2 < now - last) := by
  simp only [ClientLimiterStore.cleanupInactiveLimiters, List.mem_filter]
  constructor
  · rintro ⟨hmem, hact⟩
    refine ⟨hmem, ?_⟩
    rintro (hnil | ⟨last, hlast, hold⟩)
    · rw [isInactive, hnil] at hact
      simp at hact
    · rw [isInactive, hlast] at hact
      simp [hold] at hact
  · rintro ⟨hmem, hact⟩
    refine ⟨hmem, ?_⟩
    push_neg at hact
    obtain ⟨hne, hrecent⟩ := hact
    rw [isInactive]
    cases hlast : rl.requests.getLast? with
    | none => exact absurd (List.getLast?_eq_none_iff.mp hlast) hne
    | some last =>
      have := hrecent last hlast
      simp
      omega

/-- C5 (code bug): the double-checked creation path of `GetLimiter` returns
the `limiter` variable bound by the failed first lookup, not the counter a
concurrent call registered between the two lookups — the caller receives Go
`nil` (`none`) instead of the registered counter, while exactly that one
counter stays registered. -/
theorem c5_race_returns_stale_nil :
    (GetLimiterCore [] [("10.0.0.1", NewRateLimiter 100 timeMinute)]
        "10.0.0.1" 100 timeMinute).1 = none ∧
    (GetLimiterCore [] [("10.0.0.1", NewRateLimiter 100 timeMinute)]
        "10.0.0.1" 100 timeMinute).2 =
      [("10.0.0.1", NewRateLimiter 100 timeMinute)] ∧
    lookupLimiter [("10.0.0.1", NewRateLimiter 100 timeMinute)] "10.0.0.1" =
      some (NewRateLimiter 100 timeMinute) := by decide

/-- A string accepted by the IP parser is never empty. -/
theorem parseIPOk_ne_empty {s : String} (h : parseIPOk s = true) : s ≠ "" := by
  intro hs
  rw [hs] at h
  exact absurd h (by decide)

/-- C10: whenever `RemoteAddr` is non-empty, `getClientIP` yields a
non-empty identity — an unparseable peer address is returned verbatim and
becomes the rate-limit key — so the empty identity (the middleware's
fail-open trigger) occurs only when `RemoteAddr` is empty and no proxy
header carried a syntactically valid IP. -/
theorem c10_identity_nonempty (r : Request) :
    (firstHeaderIP r clientIPHeaders = "" → splitHostPort r.remoteAddr = none →
      getClientIP r = r.remoteAddr) ∧
    (r.remoteAddr ≠ "" → getClientIP r ≠ "") ∧
    (getClientIP r = "" →
      r.remoteAddr = "" ∧ firstHeaderIP r clientIPHeaders = "") := by
  by_cases h1 : firstHeaderIP r clientIPHeaders = ""
  · refine ⟨fun _ h2 => by simp [getClientIP, h1, h2], ?_, ?_⟩
    · intro haddr
      cases hs : splitHostPort r.remoteAddr with
      | none =>
        have hg : getClientIP r = r.remoteAddr := by simp [getClientIP, h1, hs]
        rw [hg]; exact haddr
      | some p =>
        obtain ⟨host, port⟩ := p
        by_cases hp : parseIPOk host
        · have hg : getClientIP r = host := by simp [getClientIP, h1, hs, hp]
          rw [hg]; exact parseIPOk_ne_empty hp
        · have hg : getClientIP r = r.remoteAddr := by simp [getClientIP, h1, hs, hp]
          rw [hg]; exact haddr
    · intro hip
      refine ⟨?_, h1⟩
      cases hs : splitHostPort r.remoteAddr with
      | none =>
        have hg : getClientIP r = r.remoteAddr := by simp [getClientIP, h1, hs]
        rw [hg] at hip; exact hip
      | some p =>
        obtain ⟨host, port⟩ := p
        by_cases hp : parseIPOk host
        · have hg : getClientIP r = host := by simp [getClientIP, h1, hs, hp]
          rw [hg] at hip
          exact absurd hip (parseIPOk_ne_empty hp)
        · have hg : getClientIP r = r.remoteAddr := by simp [getClientIP, h1, hs, hp]
          rw [hg] at hip; exact hip
  · have hg : getClientIP r = firstHeaderIP r clientIPHeaders := by
      simp [getClientIP, h1]
    exact ⟨fun h => absurd h h1, fun _ => hg ▸ h1, fun hip => absurd (hg ▸ hip) h1⟩

/-- C10 witness: an unparseable non-empty peer address is returned verbatim
and is a non-empty identity. -/
theorem c10_witness :
    getClientIP { headers := fun _ => "", remoteAddr := "bad_addr" } = "bad_addr" ∧
    getClientIP { headers := fun _ => "", remoteAddr := "bad_addr" } ≠ "" := by
  have h := c10_identity_nonempty { headers := fun _ => "", remoteAddr := "bad_addr" }
  exact ⟨h.1 (by decide) (by decide), h.2.1 (by decide)⟩

/-- C2 counterexample: a request with no proxy headers and the unparseable
peer address `"bad_addr"` is not failed open — the raw string is used as the
rate-limit key, and with that client's quota exhausted the middleware denies
the request with 429 instead of admitting it unconditionally. -/
theorem c2_counterexample :
    getClientIP { headers := fun _ => "", remoteAddr := "bad_addr" } = "bad_addr" ∧
    splitHostPort "bad_addr" = none ∧
    (RateLimit { enabled := true, requestsPerMinute := 1 }
        { limiters := [("bad_addr",
            { requests := [0], maxTokens := 1, window := timeMinute })],
          lastCleanup := 0, maxRequests := 1, window := timeMinute }
        { headers := fun _ => "", remoteAddr := "bad_addr" } 1000).1.forwarded = false ∧
    (RateLimit { enabled := true, requestsPerMinute := 1 }
        { limiters := [("bad_addr",
            { requests := [0], maxTokens := 1, window := timeMinute })],
          lastCleanup := 0, maxRequests := 1, window := timeMinute }
        { headers := fun _ => "", remoteAddr := "bad_addr" } 1000).1.status =
      some 429 := by decide

/-- C2 (amended): the middleware fails open — forwards unconditionally,
touching neither headers nor the registry — exactly for requests whose proxy
headers yield no valid IP and whose `RemoteAddr` is the empty string (the
only way no identity is derived). -/
theorem c2_fail_open (cfg : RateLimitConfig) (store : ClientLimiterStore)
    (r : Request) (now : Int)
    (hh : firstHeaderIP r clientIPHeaders = "") (ha : r.remoteAddr = "") :
    (RateLimit cfg store r now).1.forwarded = true ∧
    (RateLimit cfg store r now).1.status = none ∧
    (RateLimit cfg store r now).1.headers = [] ∧
    (RateLimit cfg store r now).2 = store := by
  have hip : getClientIP r = "" := by
    simp [getClientIP, hh, ha, splitHostPort, lastColon]
  by_cases he : cfg.enabled
  · simp [RateLimit, he, hip, ResponseWriter.empty]
  · simp [RateLimit, he, ResponseWriter.empty]

/-- C2 witness: a headerless request with empty `RemoteAddr` is forwarded
untouched even though another client's quota is exhausted. -/
theorem c2_witness :
    (RateLimit { enabled := true, requestsPerMinute := 1 }
        { limiters := [("9.9.9.9",
            { requests := [0], maxTokens := 1, window := timeMinute })],
          lastCleanup := 0, maxRequests := 1, window := timeMinute }
        { headers := fun _ => "", remoteAddr := "" } 1000).1.forwarded = true ∧
    (RateLimit { enabled := true, requestsPerMinute := 1 }
        { limiters := [("9.9.9.9",
            { requests := [0], maxTokens := 1, window := timeMinute })],
          lastCleanup := 0, maxRequests := 1, window := timeMinute }
        { headers := fun _ => "", remoteAddr := "" } 1000).1.status = none ∧
    (RateLimit { enabled := true, requestsPerMinute := 1 }
        { limiters := [("9.9.9.9",
            { requests := [0], maxTokens := 1, window := timeMinute })],
          lastCleanup := 0, maxRequests := 1, window := timeMinute }
        { headers := fun _ => "", remoteAddr := "" } 1000).1.headers = [] ∧
    (RateLimit { enabled := true, requestsPerMinute := 1 }
        { limiters := [("9.9.9.9",
            { requests := [0], maxTokens := 1, window := timeMinute })],
          lastCleanup := 0, maxRequests := 1, window := timeMinute }
        { headers := fun _ => "", remoteAddr := "" } 1000).2 =
      { limiters := [("9.9.9.9",
          { requests := [0], maxTokens := 1, window := timeMinute })],
        lastCleanup := 0, maxRequests := 1, window := timeMinute } :=
  c2_fail_open { enabled := true, requestsPerMinute := 1 }
    { limiters := [("9.9.9.9",
        { requests := [0], maxTokens := 1, window := timeMinute })],
      lastCleanup := 0, maxRequests := 1, window := timeMinute }
    { headers := fun _ => "", remoteAddr := "" } 1000 (by decide) rfl

/-- C7: a denied request (limiting enabled, identity derived, `Allow` false)
receives status 429, a `Retry-After` header of the whole seconds until
`resetAt` clamped below by 1, the `RATE_LIMIT_EXCEEDED` error body whose
message embeds that same value, and is not forwarded. -/
theorem c7_denied_response (cfg : RateLimitConfig) (store : ClientLimiterStore)
    (r : Request) (now : Int)
    (hen : cfg.enabled = true) (hip : getClientIP r ≠ "")
    (hdeny : (((store.GetLimiter (getClientIP r) now).1).Allow now).2.allowed = false) :
    (RateLimit cfg store r now).1.status = some 429 ∧
    (RateLimit cfg store r now).1.forwarded = false ∧
    headerValue (RateLimit cfg store r now).1.headers "Retry-After" =
      some (toString (retryAfterOf
        ((((store.GetLimiter (getClientIP r) now).1).Allow now).2.resetAt) now)) ∧
    1 ≤ retryAfterOf
        ((((store.GetLimiter (getClientIP r) now).1).Allow now).2.resetAt) now ∧
    (RateLimit cfg store r now).1.errorBody =
      some { code := "RATE_LIMIT_EXCEEDED",
             message := "Rate limit exceeded. Try again in " ++
               toString (retryAfterOf
                 ((((store.GetLimiter (getClientIP r) now).1).Allow now).2.resetAt) now) ++
               " seconds." } := by
  have hbeq : (getClientIP r == "") = false := beq_eq_false_iff_ne.mpr hip
  have hw : (RateLimit cfg store r now).1 =
      responseError
        { ResponseWriter.empty with
          headers := setHeader
            (setRateLimitHeaders [] cfg.requestsPerMinute
              ((((store.GetLimiter (getClientIP r) now).1).Allow now).2.remaining)
              ((((store.GetLimiter (getClientIP r) now).1).Allow now).2.resetAt))
            "Retry-After"
            (toString (retryAfterOf
              ((((store.GetLimiter (getClientIP r) now).1).Allow now).2.resetAt) now)) }
        429 "RATE_LIMIT_EXCEEDED"
        ("Rate limit exceeded. Try again in " ++
          toString (retryAfterOf
            ((((store.GetLimiter (getClientIP r) now).1).Allow now).2.resetAt) now) ++
          " seconds.") := by
    simp [RateLimit, hen, hbeq, hdeny]
  rw [hw]
  refine ⟨rfl, rfl, ?_, one_le_retryAfterOf _ _, rfl⟩
  rw [responseError]
  simp only []
  rw [headerValue_setHeader_ne _ _ (by decide), headerValue_setHeader_self]

/-- C7 witness: the second request of an exhausted capacity-1 client at
instant 1000ns is rejected with 429 and `Retry-After: 59`. -/
theorem c7_witness :
    (RateLimit { enabled := true, requestsPerMinute := 1 }
        { limiters := [("1.2.3.4",
            { requests := [0], maxTokens := 1, window := timeMinute })],
          lastCleanup := 0, maxRequests := 1, window := timeMinute }
        { headers := fun _ => "", remoteAddr := "1.2.3.4:80" } 1000).1.status =
      some 429 ∧
    (RateLimit { enabled := true, requestsPerMinute := 1 }
        { limiters := [("1.2.3.4",
            { requests := [0], maxTokens := 1, window := timeMinute })],
          lastCleanup := 0, maxRequests := 1, window := timeMinute }
        { headers := fun _ => "", remoteAddr := "1.2.3.4:80" } 1000).1.forwarded =
      false ∧
    headerValue (RateLimit { enabled := true, requestsPerMinute := 1 }
        { limiters := [("1.2.3.4",
            { requests := [0], maxTokens := 1, window := timeMinute })],
          lastCleanup := 0, maxRequests := 1, window := timeMinute }
        { headers := fun _ => "", remoteAddr := "1.2.3.4:80" } 1000).1.headers
        "Retry-After" =
      some (toString (retryAfterOf 60000000000 1000)) ∧
    1 ≤ retryAfterOf 60000000000 1000 ∧
    (RateLimit { enabled := true, requestsPerMinute := 1 }
        { limiters := [("1.2.3.4",
            { requests := [0], maxTokens := 1, window := timeMinute })],
          lastCleanup := 0, maxRequests := 1, window := timeMinute }
        { headers := fun _ => "", remoteAddr := "1.2.3.4:80" } 1000).1.errorBody =
      some { code := "RATE_LIMIT_EXCEEDED",
             message := "Rate limit exceeded. Try again in " ++
               toString (retryAfterOf 60000000000 1000) ++ " seconds." } :=
  c7_denied_response { enabled := true, requestsPerMinute := 1 }
    { limiters := [("1.2.3.4",
        { requests := [0], maxTokens := 1, window := timeMinute })],
      lastCleanup := 0, maxRequests := 1, window := timeMinute }
    { headers := fun _ => "", remoteAddr := "1.2.3.4:80" } 1000
    rfl (by decide) (by decide)

/-- C8: with limiting enabled and an identity derived, the response carries
`X-RateLimit-Limit` (configured capacity), `X-RateLimit-Remaining` (from
`Allow`), `X-RateLimit-Reset` (unix seconds of `resetAt`) and
`X-RateLimit-Window` (`"60"`); with limiting disabled every request is
forwarded with no headers set and the registry untouched. -/
theorem c8_rate_limit_headers (cfg : RateLimitConfig) (store : ClientLimiterStore)
    (r : Request) (now : Int) :
    (cfg.enabled = true → getClientIP r ≠ "" →
      (headerValue (RateLimit cfg store r now).1.headers "X-RateLimit-Limit" =
        some (toString cfg.requestsPerMinute) ∧
       headerValue (RateLimit cfg store r now).1.headers "X-RateLimit-Remaining" =
        some (toString
          ((((store.GetLimiter (getClientIP r) now).1).Allow now).2.remaining)) ∧
       headerValue (RateLimit cfg store r now).1.headers "X-RateLimit-Reset" =
        some (toString (unixSec
          ((((store.GetLimiter (getClientIP r) now).1).Allow now).2.resetAt))) ∧
       headerValue (RateLimit cfg store r now).1.headers "X-RateLimit-Window" =
        some "60")) ∧
    (cfg.enabled = false →
      (RateLimit cfg store r now).1.headers = [] ∧
      (RateLimit cfg store r now).1.forwarded = true ∧
      (RateLimit cfg store r now).2 = store) := by
  constructor
  · intro hen hip
    have hbeq : (getClientIP r == "") = false := beq_eq_false_iff_ne.mpr hip
    by_cases hallow :
        (((store.GetLimiter (getClientIP r) now).1).Allow now).2.allowed = true
    · have hw : (RateLimit cfg store r now).1.headers =
          setRateLimitHeaders [] cfg.requestsPerMinute
            ((((store.GetLimiter (getClientIP r) now).1).Allow now).2.remaining)
            ((((store.GetLimiter (getClientIP r) now).1).Allow now).2.resetAt) := by
        simp [RateLimit, hen, hbeq, hallow]
      rw [hw]
      exact setRateLimitHeaders_lookup _ _ _
    · simp only [Bool.not_eq_true] at hallow
      have hw : (RateLimit cfg store r now).1.headers =
          setHeader (setHeader
            (setRateLimitHeaders [] cfg.requestsPerMinute
              ((((store.GetLimiter (getClientIP r) now).1).Allow now).2.remaining)
              ((((store.GetLimiter (getClientIP r) now).1).Allow now).2.resetAt))
            "Retry-After"
            (toString (retryAfterOf
              ((((store.GetLimiter (getClientIP r) now).1).Allow now).2.resetAt) now)))
            "Content-Type" "application/json" := by
        simp [RateLimit, hen, hbeq, hallow, responseError]
      rw [hw]
      obtain ⟨h1, h2, h3, h4⟩ := setRateLimitHeaders_lookup cfg.requestsPerMinute
        ((((store.GetLimiter (getClientIP r) now).1).Allow now).2.remaining)
        ((((store.GetLimiter (getClientIP r) now).1).Allow now).2.resetAt)
      refine ⟨?_, ?_, ?_, ?_⟩ <;>
        rw [headerValue_setHeader_ne _ _ (by decide),
          headerValue_setHeader_ne _ _ (by decide)]
      · exact h1
      · exact h2
      · exact h3
      · exact h4
  · intro hdis
    simp [RateLimit, hdis, ResponseWriter.empty]

/-- C8 witness: an admitted first request carries the four headers, and the
same request with limiting disabled is forwarded with none. -/
theorem c8_witness :
    headerValue (RateLimit { enabled := true, requestsPerMinute := 7 }
        (NewClientLimiterStore 7 timeMinute 0)
        { headers := fun _ => "", remoteAddr := "1.2.3.4:80" } 1000).1.headers
        "X-RateLimit-Window" = some "60" ∧
    (RateLimit { enabled := false, requestsPerMinute := 7 }
        (NewClientLimiterStore 7 timeMinute 0)
        { headers := fun _ => "", remoteAddr := "1.2.3.4:80" } 1000).1.headers =
      [] := by
  constructor
  · exact ((c8_rate_limit_headers { enabled := true, requestsPerMinute := 7 }
      (NewClientLimiterStore 7 timeMinute 0)
      { headers := fun _ => "", remoteAddr := "1.2.3.4:80" } 1000).1
      rfl (by decide)).2.2.2
  · exact ((c8_rate_limit_headers { enabled := false, requestsPerMinute := 7 }
      (NewClientLimiterStore 7 timeMinute 0)
      { headers := fun _ => "", remoteAddr := "1.2.3.4:80" } 1000).2 rfl).1

/-- C3: with capacity ≥ 1, `capacity` requests in rapid succession (all
strictly within the window of the next call, nondecreasing clock) are all
admitted; the `(capacity+1)`-th call returns `(false, 0, resetAt)` with
`resetAt` the oldest in-window timestamp plus the window, `resetAt ≥ now`;
and any call at or after `resetAt` is admitted again. -/
theorem c3_capacity_cycle (cap w : Int) (ts : List Int) (tNext : Int)
    (hcap : 1 ≤ cap) (hlen : (ts.length : Int) = cap)
    (hsorted : (ts ++ [tNext]).Sorted (· ≤ ·))
    (hwin : ∀ x ∈ ts, tNext - w < x) :
    (∀ a ∈ runResults (NewRateLimiter cap w) ts, a.allowed = true) ∧
    ∃ t1 rest, ts = t1 :: rest ∧
      ((runCalls (NewRateLimiter cap w) ts).Allow tNext).2 =
        { allowed := false, remaining := 0, resetAt := t1 + w } ∧
      tNext ≤ t1 + w ∧
      ∀ tLater, t1 + w ≤ tLater →
        ((((runCalls (NewRateLimiter cap w) ts).Allow tNext).1).Allow
          tLater).2.allowed = true := by
  have hpart1 : ∀ a ∈ runResults (NewRateLimiter cap w) ts, a.allowed = true := by
    apply runResults_all_allowed
    show ((([] : List Int).length : Int) + ts.length ≤ cap)
    simp
    omega
  obtain ⟨t1, rest, rfl⟩ : ∃ t1 rest, ts = t1 :: rest := by
    cases ts with
    | nil =>
      exfalso
      simp at hlen
      omega
    | cons a l => exact ⟨a, l, rfl⟩
  have hle_next : ∀ u ∈ t1 :: rest, u ≤ tNext := by
    have hp := List.pairwise_append.mp hsorted
    intro u hu
    exact hp.2.2 u hu tNext (by simp)
  have hrun : runCalls (NewRateLimiter cap w) (t1 :: rest) =
      ⟨t1 :: rest, cap, w⟩ := by
    have h2 : ∀ u ∈ t1 :: rest, ∀ x ∈ ([] : List Int) ++ t1 :: rest, u - w < x := by
      intro u hu x hx
      rw [List.nil_append] at hx
      have ha := hwin x hx
      have hb := hle_next u hu
      omega
    have h1 : ((([] : List Int).length : Int) + (t1 :: rest).length ≤ cap) := by
      have hl := hlen
      simp at hl ⊢
      omega
    have h3 := runCalls_no_prune (t1 :: rest) [] cap w h1 h2
    rw [List.nil_append] at h3
    exact h3
  have hprune2 : (⟨t1 :: rest, cap, w⟩ : RateLimiter).pruned tNext = t1 :: rest := by
    show List.dropWhile (fun reqTime => decide (reqTime ≤ tNext - w)) (t1 :: rest) =
      t1 :: rest
    apply dropWhile_eq_self_of_head
    intro x hx
    simp only [decide_eq_false_iff_not]
    have := hwin x hx
    omega
  have hnot : ¬0 < (⟨t1 :: rest, cap, w⟩ : RateLimiter).maxTokens -
      (((⟨t1 :: rest, cap, w⟩ : RateLimiter).pruned tNext).length : Int) := by
    rw [hprune2]
    show ¬0 < cap - (((t1 :: rest).length : Int))
    omega
  have hdenied := Allow_eq_denied (⟨t1 :: rest, cap, w⟩ : RateLimiter) tNext hnot
  rw [hprune2] at hdenied
  refine ⟨hpart1, t1, rest, rfl, ?_, ?_, ?_⟩
  · rw [hrun, hdenied]
  · have := hwin t1 (by simp)
    omega
  · intro tLater hts
    rw [hrun, hdenied]
    show ((⟨t1 :: rest, cap, w⟩ : RateLimiter).Allow tLater).2.allowed = true
    have hd : (⟨t1 :: rest, cap, w⟩ : RateLimiter).pruned tLater =
        rest.dropWhile (fun reqTime => decide (reqTime ≤ tLater - w)) := by
      show List.dropWhile (fun reqTime => decide (reqTime ≤ tLater - w)) (t1 :: rest) = _
      rw [List.dropWhile_cons]
      have h1 : t1 ≤ tLater - w := by omega
      simp [h1]
    have hpos : 0 < (⟨t1 :: rest, cap, w⟩ : RateLimiter).maxTokens -
        (((⟨t1 :: rest, cap, w⟩ : RateLimiter).pruned tLater).length : Int) := by
      rw [hd]
      show 0 < cap -
        ((rest.dropWhile (fun reqTime => decide (reqTime ≤ tLater - w))).length : Int)
      have h1 := length_dropWhile_le'
        (p := fun reqTime => decide (reqTime ≤ tLater - w)) rest
      have h2 : ((t1 :: rest).length : Int) = cap := hlen
      simp only [List.length_cons] at h2
      push_cast at h2
      omega
    rw [Allow_eq_admitted (⟨t1 :: rest, cap, w⟩ : RateLimiter) tLater hpos]

/-- C1: over any run with nondecreasing clock from a fresh counter, (i) at
every call the prune is a prefix trim dropping exactly a leading run of
entries `≤ now - window`, and immediately after the call every stored entry
lies within `[now - window, now]`; (ii) for every instant `T`, the number of
admitted instants inside the trailing window `(T - window, T]` never exceeds
the capacity. -/
theorem c1_sliding_window_invariant (cap w : Int) (hcap : 0 ≤ cap) (hw : 0 ≤ w)
    (ts : List Int) (hts : ts.Sorted (· ≤ ·)) :
    (∀ pre n post, ts = pre ++ n :: post →
      (∃ dropped,
        (runCalls (NewRateLimiter cap w) pre).requests =
          dropped ++ (runCalls (NewRateLimiter cap w) pre).pruned n ∧
        ∀ x ∈ dropped, x ≤ n - w) ∧
      ∀ x ∈ (runCalls (NewRateLimiter cap w) (pre ++ [n])).requests,
        n - w ≤ x ∧ x ≤ n) ∧
    (∀ T : Int,
      ((admittedTimes (NewRateLimiter cap w) ts).countP
        (fun s => decide (T - w < s ∧ s ≤ T)) : Int) ≤ cap) := by
  constructor
  · intro pre n post hdecomp
    have hsplitp := List.pairwise_append.mp (hdecomp ▸ hts)
    have hspre : pre.Sorted (· ≤ ·) := hsplitp.1
    have hpre_le : ∀ x ∈ pre, x ≤ n := fun x hx => hsplitp.2.2 x hx n (by simp)
    have hnil : (NewRateLimiter cap w).requests = [] := rfl
    have hSsorted : (runCalls (NewRateLimiter cap w) pre).requests.Sorted (· ≤ ·) := by
      apply runCalls_sorted pre (NewRateLimiter cap w) _ hspre
      · intro x hx
        rw [hnil] at hx
        exact absurd hx (List.not_mem_nil x)
      · rw [hnil]
        exact List.sorted_nil
    have hSmem : ∀ x ∈ (runCalls (NewRateLimiter cap w) pre).requests, x ∈ pre := by
      intro x hx
      rcases runCalls_requests_mem pre (NewRateLimiter cap w) x hx with h1 | h1
      · rw [hnil] at h1
        exact absurd h1 (List.not_mem_nil x)
      · exact h1
    have hwS : (runCalls (NewRateLimiter cap w) pre).window = w := by
      rw [runCalls_window]
      rfl
    constructor
    · refine ⟨(runCalls (NewRateLimiter cap w) pre).requests.takeWhile
        (fun t => decide (t ≤ n - (runCalls (NewRateLimiter cap w) pre).window)),
        ?_, ?_⟩
      · exact (List.takeWhile_append_dropWhile _ _).symm
      · intro x hx
        have hx' := List.mem_takeWhile_imp hx
        rw [hwS] at hx'
        simpa using hx'
    · intro x hx
      rw [runCalls_concat] at hx
      have hinwin : ∀ y ∈ (runCalls (NewRateLimiter cap w) pre).pruned n,
          n - w ≤ y ∧ y ≤ n := by
        intro y hy
        have hy1 : n - w < y := by
          have := mem_dropWhile_of_sorted (c := n -
            (runCalls (NewRateLimiter cap w) pre).window) hSsorted y hy
          rw [hwS] at this
          exact this
        have hy2 : y ≤ n := hpre_le y (hSmem y (mem_dropWhile_subset hy))
        exact ⟨le_of_lt hy1, hy2⟩
      by_cases hpos : 0 < (runCalls (NewRateLimiter cap w) pre).maxTokens -
          (((runCalls (NewRateLimiter cap w) pre).pruned n).length : Int)
      · rw [Allow_eq_admitted _ n hpos] at hx
        simp only at hx
        rcases List.mem_append.mp hx with hk | hn
        · exact hinwin x hk
        · rw [List.mem_singleton.mp hn]
          omega
      · rw [Allow_eq_denied _ n hpos] at hx
        exact hinwin x hx
  · intro T
    have hmain := admitted_countP_le ts (NewRateLimiter cap w) cap w T rfl rfl hts
      (by
        intro x hx
        have hnil : (NewRateLimiter cap w).requests = [] := rfl
        rw [hnil] at hx
        exact absurd hx (List.not_mem_nil x))
      (by
        have hnil : (NewRateLimiter cap w).requests = [] := rfl
        rw [hnil, List.length_nil]
        push_cast
        exact le_max_right cap 0)
    have hnil : (NewRateLimiter cap w).requests = [] := rfl
    rw [hnil, List.countP_nil, max_eq_left hcap] at hmain
    push_cast at hmain
    omega

/-- C1 witness: capacity 1, window 60, calls at 0, 10, 200 — at most one
admitted instant falls in the trailing window ending at 30, and after the
first call every stored entry is within its window. -/
theorem c1_witness :
    ((∃ dropped,
        (runCalls (NewRateLimiter 1 60) []).requests =
          dropped ++ (runCalls (NewRateLimiter 1 60) []).pruned 0 ∧
        ∀ x ∈ dropped, x ≤ 0 - 60) ∧
      ∀ x ∈ (runCalls (NewRateLimiter 1 60) ([] ++ [0])).requests,
        0 - 60 ≤ x ∧ x ≤ 0) ∧
    ((admittedTimes (NewRateLimiter 1 60) [0, 10, 200]).countP
      (fun s => decide ((30 : Int) - 60 < s ∧ s ≤ 30)) : Int) ≤ 1 := by
  have h := c1_sliding_window_invariant 1 60 (by decide) (by decide) [0, 10, 200]
    (by decide)
  exact ⟨h.1 [] 0 [10, 200] rfl, h.2 30⟩

/-- C3 witness: capacity 2 at instants 0, 1; the call at 2 is denied with
reset 60; any call at or past 60 is admitted again. -/
theorem c3_witness :
    (∀ a ∈ runResults (NewRateLimiter 2 60) [0, 1], a.allowed = true) ∧
    ∃ t1 rest, ([0, 1] : List Int) = t1 :: rest ∧
      ((runCalls (NewRateLimiter 2 60) [0, 1]).Allow 2).2 =
        { allowed := false, remaining := 0, resetAt := t1 + 60 } ∧
      (2 : Int) ≤ t1 + 60 ∧
      ∀ tLater, t1 + 60 ≤ tLater →
        ((((runCalls (NewRateLimiter 2 60) [0, 1]).Allow 2).1).Allow
          tLater).2.allowed = true :=
  c3_capacity_cycle 2 60 [0, 1] 2 (by decide) (by decide) (by decide) (by decide)

end Middlewares
